import Mathlib

/-!
# LocalCloud — file lifecycle and versioning engine, shallowly embedded

This file embeds the core of the LocalCloud backend
(`src/backend/src/modules/files/file.service.ts` and
`src/backend/src/modules/files/folder.service.ts`, together with the
Prisma/SQLite schema from `src/backend/prisma/migrations`) as executable
Lean definitions, and proves or refutes the claims of the specification about
upload, versioning, quota accounting, soft delete, folder subtrees and
duplicate detection.

Modelling conventions:
* A database state is a `DB`: lists of `UserRow`, `FolderRow`, `FileRow`
  and `VersionRow`, mirroring the four Prisma models.
* Each service method becomes a pure function on `DB`.  A thrown
  `Error` becomes `Except ServiceError`; the distinct error messages of
  the service are mapped one-to-one onto `ServiceError` constructors.
* Every call to `new Date()` in the TypeScript becomes an explicit clock
  argument (`now`, or two arguments when the source reads the clock
  twice), and freshly generated cuids become explicit `freshId` arguments.
* JavaScript truthiness on optional strings (`if (parentId)`,
  `!folderId`, `s || t`) is modelled by `jsTruthy` / `jsOrString`.
* The SHA-256 hasher (`crypto.createHash`) is an external library call;
  `uploadFile` takes the digest function as an explicit parameter.
-/

set_option autoImplicit false

namespace LocalCloud

/-- `const MB_IN_BYTES = 1024 * 1024` (file.service.ts line 4). -/
def MB_IN_BYTES : Int := 1024 * 1024

/-- A row of the Prisma `User` model; `storageLimitMb` is the nullable
per-account ceiling in megabytes (a JS number, possibly ≤ 0). -/
structure UserRow where
  id : String
  storageLimitMb : Option Int
  deriving Repr, DecidableEq

/-- A row of the Prisma `Folder` model (after migration
`20251110211312_add_folder_soft_delete`). -/
structure FolderRow where
  id : String
  userId : String
  name : String
  parentId : Option String
  isDeleted : Bool
  deletedAt : Option Nat
  createdAt : Nat
  updatedAt : Nat
  deriving Repr, DecidableEq

/-- A row of the Prisma `File` model.  `content` is the inline binary
payload (a byte list), `contentHash` the nullable SHA-256 hex digest. -/
structure FileRow where
  id : String
  userId : String
  folderId : Option String
  name : String
  originalName : String
  size : Nat
  mimeType : String
  content : List Nat
  contentHash : Option String
  isDeleted : Bool
  deletedAt : Option Nat
  createdAt : Nat
  updatedAt : Nat
  deriving Repr, DecidableEq

/-- A row of the Prisma `FileVersion` model: an immutable archived
snapshot of the payload of a parent file. -/
structure VersionRow where
  id : String
  fileId : String
  content : List Nat
  size : Nat
  version : Nat
  mimeType : String
  createdAt : Nat
  deriving Repr, DecidableEq

/-- The whole relational store. -/
structure DB where
  users : List UserRow
  folders : List FolderRow
  files : List FileRow
  versions : List VersionRow
  deriving Repr, DecidableEq

/-- The distinct thrown `Error` messages, one constructor each. -/
inductive ServiceError where
  /-- "Storage limit exceeded. Available … MB, attempted to add … MB."
  Carries available bytes and attempted bytes. -/
  | QuotaExceeded (availableBytes attemptedBytes : Int)
  /-- "Folder not found / no access" -/
  | FolderNotFound
  /-- "Parent file not found" -/
  | ParentNotFound
  /-- "File not found" / "Deleted file not found" -/
  | FileNotFound
  /-- "File buffer not available" -/
  | FileBufferMissing
  /-- "Folder name is required" -/
  | InvalidName
  /-- "Parent folder not found" -/
  | ParentFolderNotFound
  /-- "A folder with this name already exists at this level" (Prisma P2002) -/
  | DuplicateName
  deriving Repr, DecidableEq

/-- Decidable equality of `Except` results, so that concrete runs of the
embedded services can be checked by `decide`. -/
instance {ε α : Type} [DecidableEq ε] [DecidableEq α] : DecidableEq (Except ε α) :=
  fun x y =>
    match x, y with
    | .ok a, .ok b =>
      if h : a = b then .isTrue (congrArg Except.ok h)
      else .isFalse (fun hc => h (Except.ok.inj hc))
    | .error a, .error b =>
      if h : a = b then .isTrue (congrArg Except.error h)
      else .isFalse (fun hc => h (Except.error.inj hc))
    | .ok _, .error _ => .isFalse (fun hc => Except.noConfusion hc)
    | .error _, .ok _ => .isFalse (fun hc => Except.noConfusion hc)

/-- JavaScript truthiness of an optional string: `undefined`, `null` and
`""` are falsy. -/
def jsTruthy : Option String → Bool
  | none => false
  | some s => !(s == "")

/-- JavaScript `a || b` on strings: the left operand unless it is empty. -/
def jsOrString (a b : String) : String :=
  if a = "" then b else a

/-- JavaScript `String.prototype.trim`: strip leading and trailing
whitespace.  (Implemented structurally over the character list so that
concrete instances reduce inside the kernel.) -/
def jsTrim (s : String) : String :=
  ⟨((s.data.dropWhile Char.isWhitespace).reverse.dropWhile
      Char.isWhitespace).reverse⟩

/-- `sanitizeSegment` (file.service.ts lines 7-8): replace every character
outside `[a-zA-Z0-9-_]` by `_`, trim, and fall back to `"folder"` when the
result is empty. -/
def sanitizeSegment (segment : String) : String :=
  jsOrString (jsTrim ⟨segment.data.map
    (fun c => if c.isAlphanum ∨ c = '-' ∨ c = '_' then c else '_')⟩) "folder"

/-! ## Quota Ledger -/

/-- `resolveUserLimitBytes` (file.service.ts lines 11-21): the per-user
`storageLimitMb` when present (JS `??` keeps `0` and negative values),
else the process default; any value ≤ 0 means "unbounded" (`null`). -/
def resolveUserLimitBytes (db : DB) (defaultLimitMb : Int) (userId : String) :
    Option Int :=
  let limitMb :=
    match db.users.find? (fun u => u.id == userId) with
    | some u => u.storageLimitMb.getD defaultLimitMb
    | none => defaultLimitMb
  if limitMb ≤ 0 then none else some (limitMb * MB_IN_BYTES)

/-- Does the version row belong to a file owned by `userId`?  Models the
relational filter `where: { file: { userId } }`. -/
def versionOwnedBy (db : DB) (userId : String) (v : VersionRow) : Bool :=
  db.files.any (fun f => f.id == v.fileId && f.userId == userId)

/-- `getUserUsageBytes` (file.service.ts lines 23-35): sum of the sizes of
all file rows of the user (no delete-state filter) plus the sizes of all
version rows whose parent file the user owns. -/
def getUserUsageBytes (db : DB) (userId : String) : Nat :=
  ((db.files.filter (fun f => f.userId == userId)).foldl
      (fun s f => s + f.size) 0)
  + ((db.versions.filter (versionOwnedBy db userId)).foldl
      (fun s v => s + v.size) 0)

/-- `ensureStorageAvailable` (file.service.ts lines 37-54): no-op when
`bytesToAdd ≤ 0` or the limit is unbounded; otherwise fails with
`QuotaExceeded` when usage + bytesToAdd exceeds the limit. -/
def ensureStorageAvailable (db : DB) (defaultLimitMb : Int) (userId : String)
    (bytesToAdd : Int) : Except ServiceError Unit :=
  if bytesToAdd ≤ 0 then .ok ()
  else
    match resolveUserLimitBytes db defaultLimitMb userId with
    | none => .ok ()
    | some limitBytes =>
      let usage : Int := getUserUsageBytes db userId
      if usage + bytesToAdd > limitBytes then
        .error (.QuotaExceeded (max (limitBytes - usage) 0) bytesToAdd)
      else
        .ok ()

/-! ## Folder ownership and upload -/

/-- The blank-ish folder ids accepted by `validateFolderOwnership`
(file.service.ts line 57): missing, empty, the literal `"null"`, or
whitespace-only.  (`!folderId` already covers `""`; the `trim` test covers
whitespace-only strings.) -/
def isBlankFolderId : Option String → Bool
  | none => true
  | some s => s == "" || s == "null" || jsTrim s == ""

/-- `validateFolderOwnership` (file.service.ts lines 56-71): blank-ish ids
resolve to the root (`null`); otherwise the folder must exist and belong
to the user (no delete-state filter in the query). -/
def validateFolderOwnership (db : DB) (userId : String)
    (folderId : Option String) : Except ServiceError (Option String) :=
  if isBlankFolderId folderId then .ok none
  else
    match db.folders.find? (fun f => f.id == folderId.getD "" && f.userId == userId) with
    | some f => .ok (some f.id)
    | none => .error .FolderNotFound

/-- The relevant fields of an `Express.Multer.File` upload. -/
structure UploadInput where
  originalname : String
  mimetype : String
  buffer : Option (List Nat)
  size : Nat
  deriving Repr, DecidableEq

/-- The value returned by a successful `uploadFile`, paired with the
post-state. -/
structure UploadResult where
  db : DB
  file : FileRow
  deriving Repr, DecidableEq

/-- `uploadFile` (file.service.ts lines 77-155).  `hash` is the SHA-256
hex digest (external `crypto` library), `now` the single request
timestamp, `freshId` the cuid generated for the created row (the new
`FileVersion` in the version branch, the new `File` otherwise).

Version branch (`isVersion && parentFileId` truthy): looks up the parent
by `(id, userId)` only, archives the current parent
content/size/mimeType as a `FileVersion` numbered `count + 1`, then
overwrites the parent row with the new payload.  Create branch: quota
check, folder validation, then insertion of a fresh `File` row carrying
the content digest. -/
def uploadFile (db : DB) (defaultLimitMb : Int) (hash : List Nat → String)
    (userId : String) (file : UploadInput) (isVersion : Bool)
    (parentFileId : Option String) (folderId : Option String)
    (now : Nat) (freshId : String) : Except ServiceError UploadResult :=
  match file.buffer with
  | none => .error .FileBufferMissing
  | some buf =>
    if isVersion && jsTruthy parentFileId then
      let p := parentFileId.getD ""
      match db.files.find? (fun f => f.id == p && f.userId == userId) with
      | none => .error .ParentNotFound
      | some existingFile =>
        match ensureStorageAvailable db defaultLimitMb userId file.size with
        | .error e => .error e
        | .ok _ =>
          let versionNumber :=
            (db.versions.filter (fun v => v.fileId == p)).length + 1
          let newVersion : VersionRow :=
            { id := freshId
              fileId := p
              content := existingFile.content
              size := existingFile.size
              version := versionNumber
              mimeType := existingFile.mimeType
              createdAt := now }
          let updatedFile : FileRow :=
            { existingFile with
              name := jsOrString (sanitizeSegment file.originalname) existingFile.name
              originalName := file.originalname
              size := file.size
              mimeType := file.mimetype
              content := buf
              updatedAt := now }
          .ok
            { db :=
                { db with
                  versions := db.versions ++ [newVersion]
                  files := db.files.map (fun f => if f.id = p then updatedFile else f) }
              file := updatedFile }
    else
      match ensureStorageAvailable db defaultLimitMb userId file.size with
      | .error e => .error e
      | .ok _ =>
        match validateFolderOwnership db userId folderId with
        | .error e => .error e
        | .ok targetFolderId =>
          let createdFile : FileRow :=
            { id := freshId
              userId := userId
              folderId := targetFolderId
              name := sanitizeSegment file.originalname
              originalName := file.originalname
              size := file.size
              mimeType := file.mimetype
              content := buf
              contentHash := some (hash buf)
              isDeleted := false
              deletedAt := none
              createdAt := now
              updatedAt := now }
          .ok { db := { db with files := db.files ++ [createdFile] }, file := createdFile }

/-- `deleteFile` (file.service.ts lines 240-265): the lookup is by
`(id, userId)` only — no delete-state filter.  `permanent = true` removes
the file and all its versions; otherwise the row is marked
`isDeleted = true, deletedAt = now` (even when already soft-deleted). -/
def deleteFile (db : DB) (fileId userId : String) (permanent : Bool)
    (now : Nat) : Except ServiceError DB :=
  match db.files.find? (fun f => f.id == fileId && f.userId == userId) with
  | none => .error .FileNotFound
  | some _ =>
    if permanent then
      .ok { db with
            versions := db.versions.filter (fun v => !(v.fileId == fileId))
            files := db.files.filter (fun f => !(f.id == fileId)) }
    else
      .ok { db with
            files := db.files.map (fun f =>
              if f.id = fileId then { f with isDeleted := true, deletedAt := some now }
              else f) }

/-! ## Folder Tree Manager -/

/-- Semantics of the SQLite unique index
`Folder_userId_name_parentId_key` on `(userId, name, parentId)`
(migration `20251110211312_add_folder_soft_delete/migration.sql`): an
insert conflicts exactly when an existing row matches on all three
columns.  SQLite treats `NULL` as distinct from every value in a UNIQUE
index, so rows whose `parentId` is `NULL` (root-level folders) never
conflict.  The index does not mention `isDeleted`, so soft-deleted rows
participate. -/
def uniqueIndexViolation (folders : List FolderRow) (userId name : String)
    (parentId : Option String) : Bool :=
  match parentId with
  | none => false
  | some p =>
    folders.any (fun f =>
      f.userId == userId && f.name == name && f.parentId == some p)

/-- `createFolder` (folder.service.ts lines 14-46): trim the name (empty →
error), validate a truthy `parentId` by `(id, userId)` (no delete-state
filter), then insert; a P2002 unique-constraint violation from the index
above is rethrown as the duplicate-name error.  The stored `parentId` is
`parentId || null`. -/
def createFolder (db : DB) (userId name : String) (parentId : Option String)
    (now : Nat) (freshId : String) : Except ServiceError (DB × FolderRow) :=
  let trimmedName := jsTrim name
  if trimmedName = "" then .error .InvalidName
  else
    let parentOk : Except ServiceError Unit :=
      if jsTruthy parentId then
        match db.folders.find? (fun f => f.id == parentId.getD "" && f.userId == userId) with
        | some _ => .ok ()
        | none => .error .ParentFolderNotFound
      else .ok ()
    match parentOk with
    | .error e => .error e
    | .ok _ =>
      let storedParent := if jsTruthy parentId then parentId else none
      if uniqueIndexViolation db.folders userId trimmedName storedParent then
        .error .DuplicateName
      else
        let folder : FolderRow :=
          { id := freshId
            userId := userId
            name := trimmedName
            parentId := storedParent
            isDeleted := false
            deletedAt := none
            createdAt := now
            updatedAt := now }
        .ok ({ db with folders := db.folders ++ [folder] }, folder)

/-- The `(id, parentId)` projection of a folder row, as selected by
the `findMany` of `deleteFolder`. -/
structure IdParent where
  id : String
  parentId : Option String
  deriving Repr, DecidableEq

/-- `collectSubtree` (folder.service.ts lines 111-114): the root id
followed by the recursively collected subtrees of every folder whose
`parentId` is the root.  The TypeScript recursion has no termination
guard (it diverges on a parent cycle); the embedding carries explicit
fuel, which is sufficient whenever the parent graph restricted to the
loaded rows is acyclic and the fuel is at least the number of rows. -/
def collectSubtree (allFolders : List IdParent) : Nat → String → List String
  | 0, rootId => [rootId]
  | fuel + 1, rootId =>
    let children := allFolders.filter (fun f => f.parentId == some rootId)
    rootId :: children.flatMap (fun child => collectSubtree allFolders fuel child.id)

/-- The descendant closure computed inside `deleteFolder`: `collectSubtree`
over the `(id, parentId)` projections of the non-deleted folders of the
user, with fuel equal to the number of loaded rows. -/
def deleteClosure (db : DB) (userId folderId : String) : List String :=
  let allFolders :=
    (db.folders.filter (fun f => f.userId == userId && !f.isDeleted)).map
      (fun f => IdParent.mk f.id f.parentId)
  collectSubtree allFolders allFolders.length folderId

/-- `deleteFolder` (folder.service.ts lines 96-138): requires a
non-deleted folder owned by the user; computes the descendant closure via
`deleteClosure`; soft-deletes every non-deleted file whose `folderId` is
in the closure, then every folder in the closure.  The source reads the
clock separately for the two `updateMany` calls, so the embedding takes
two timestamps `tFiles` and `tFolders`. -/
def deleteFolder (db : DB) (userId folderId : String)
    (tFiles tFolders : Nat) : Except ServiceError DB :=
  match db.folders.find? (fun f =>
      f.id == folderId && f.userId == userId && !f.isDeleted) with
  | none => .error .FolderNotFound
  | some _ =>
    let subtreeIds := deleteClosure db userId folderId
    .ok { db with
          files := db.files.map (fun f =>
            if f.userId = userId ∧ (∃ x ∈ subtreeIds, f.folderId = some x) ∧
                f.isDeleted = false then
              { f with isDeleted := true, deletedAt := some tFiles }
            else f)
          folders := db.folders.map (fun g =>
            if g.userId = userId ∧ g.id ∈ subtreeIds then
              { g with isDeleted := true, deletedAt := some tFolders }
            else g) }

/-! ## Duplicate detection -/

/-- Creation-time order on file rows, the sort key of the
`findDuplicates` query. -/
def byCreated (a b : FileRow) : Prop := a.createdAt ≤ b.createdAt

instance : DecidableRel byCreated := fun a b => Nat.decLe a.createdAt b.createdAt

instance : IsTotal FileRow byCreated := ⟨fun a b => Nat.le_total a.createdAt b.createdAt⟩

instance : IsTrans FileRow byCreated := ⟨fun _ _ _ => Nat.le_trans⟩

/-- Model of the query modifier `orderBy createdAt asc` in
`findDuplicates`: a stable sort on `createdAt` (the database order among
equal timestamps is unspecified; any sorted permutation models it). -/
def sortByCreatedAt (l : List FileRow) : List FileRow :=
  List.insertionSort byCreated l

/-- Append `f` to the group of hash `h` inside the association list
`acc`, creating a fresh trailing group when `h` is new.  This is the
per-file effect of the `Map`-based grouping loop in `findDuplicates`
(file.service.ts lines 433-441): a JS `Map` keeps keys in insertion
order, and each group keeps its files in insertion order. -/
def insertGrouped : List (String × List FileRow) → String → FileRow →
    List (String × List FileRow)
  | [], h, f => [(h, [f])]
  | (k, g) :: rest, h, f =>
    if k = h then (k, g ++ [f]) :: rest
    else (k, g) :: insertGrouped rest h f

/-- The per-file step of the grouping loop of `findDuplicates`: files
with a falsy `contentHash` (`null` or the empty string) are skipped (`if
(!file.contentHash) continue`), every other file is appended to the
group of its hash. -/
def groupStep (acc : List (String × List FileRow)) (f : FileRow) :
    List (String × List FileRow) :=
  match f.contentHash with
  | none => acc
  | some h => if h = "" then acc else insertGrouped acc h f

/-- The grouping loop of `findDuplicates` (file.service.ts lines
433-441). -/
def groupByHash (files : List FileRow) : List (String × List FileRow) :=
  files.foldl groupStep []

/-- The loop body of `buildFolderPath` (file.service.ts lines 414-427):
walk `parentId` links upward, prepending each folder name; stop at the
root or at a missing parent (defensive `break`).  The TypeScript `while`
has no cycle guard; the embedding carries fuel. -/
def buildFolderPathLoop (folders : List FolderRow) :
    Nat → Option String → List String → List String
  | 0, _, acc => acc
  | _ + 1, none, acc => acc
  | fuel + 1, some fid, acc =>
    match folders.find? (fun f => f.id == fid) with
    | none => acc
    | some f => buildFolderPathLoop folders fuel f.parentId (f.name :: acc)

/-- `buildFolderPath` (file.service.ts lines 411-430): `"/All Files"` for
a file with no (or JS-falsy) folder, otherwise `"/"` plus the collected
names joined with `" / "`.  The `findUnique` lookups are global (not
restricted to the user or to non-deleted folders). -/
def buildFolderPath (folders : List FolderRow) (fuel : Nat)
    (folderId : Option String) : String :=
  if jsTruthy folderId then
    "/" ++ String.intercalate " / " (buildFolderPathLoop folders fuel folderId [])
  else "/All Files"

/-- A member of a duplicate group as returned to the client. -/
structure DupEntry where
  id : String
  name : String
  originalName : String
  size : Nat
  mimeType : String
  createdAt : Nat
  updatedAt : Nat
  folderPath : String
  deriving Repr, DecidableEq

/-- One duplicate group of the report. -/
structure DupGroup where
  hash : String
  count : Nat
  files : List DupEntry
  totalWastedSpace : Nat
  deriving Repr, DecidableEq

/-- The aggregate report of `findDuplicates`. -/
structure DupReport where
  duplicateGroups : List DupGroup
  totalGroups : Nat
  totalWastedSpace : Nat
  deriving Repr, DecidableEq

/-- The projection of a file row to a reported duplicate-group member. -/
def toDupEntry (folders : List FolderRow) (f : FileRow) : DupEntry :=
  { id := f.id
    name := f.name
    originalName := f.originalName
    size := f.size
    mimeType := f.mimeType
    createdAt := f.createdAt
    updatedAt := f.updatedAt
    folderPath := buildFolderPath folders folders.length f.folderId }

/-- The `where` clause of the `findMany` in `findDuplicates`: the
non-deleted files of the user whose `contentHash` is non-null. -/
def dupSelect (userId : String) (f : FileRow) : Bool :=
  f.userId == userId && !f.isDeleted && f.contentHash.isSome

/-- `findDuplicates` (file.service.ts lines 379-483): load the
non-deleted files of the user with a non-null `contentHash`, ordered by
`createdAt` ascending; group by hash; keep groups with more than one
member; report each group with resolved folder paths for its members and
a wasted space equal to the summed sizes of all members but the first
(`group.files.slice(1)`), plus the total across groups. -/
def findDuplicates (db : DB) (userId : String) : DupReport :=
  let files := sortByCreatedAt (db.files.filter (dupSelect userId))
  let duplicateGroups := (groupByHash files).filter (fun g => g.2.length > 1)
  let withPaths := duplicateGroups.map (fun g =>
    { hash := g.1
      count := g.2.length
      files := g.2.map (toDupEntry db.folders)
      totalWastedSpace := (g.2.drop 1).foldl (fun s f => s + f.size) 0 : DupGroup })
  { duplicateGroups := withPaths
    totalGroups := withPaths.length
    totalWastedSpace := withPaths.foldl (fun s g => s + g.totalWastedSpace) 0 }

/-! ## Concrete states used by witnesses and counterexamples -/

/-- A file row with the given id, digest, size, creation time, folder and
delete flag; the remaining fields are fixed. -/
def mkFile (id : String) (h : Option String) (sz t : Nat)
    (fid : Option String) (del : Bool) : FileRow :=
  { id := id, userId := "u", folderId := fid, name := id, originalName := id,
    size := sz, mimeType := "text/plain", content := [1], contentHash := h,
    isDeleted := del, deletedAt := if del then some 5 else none,
    createdAt := t, updatedAt := t }

/-- A user whose per-account ceiling is set to `0` MB. -/
def exDbLimit0 : DB :=
  { users := [{ id := "u", storageLimitMb := some 0 }],
    folders := [], files := [], versions := [] }

/-- A user whose per-account ceiling is set to `3` MB. -/
def exDbLimit3 : DB :=
  { users := [{ id := "u", storageLimitMb := some 3 }],
    folders := [], files := [], versions := [] }

/-- One soft-deleted file `f1` (deleted at time 5) owned by `u`. -/
def exDbDeleted : DB :=
  { users := [{ id := "u", storageLimitMb := none }],
    folders := [],
    files := [mkFile "f1" (some "h") 4 0 none true],
    versions := [] }

/-- One live file `f1` owned by the unlimited user `u`. -/
def exDbLive : DB :=
  { users := [{ id := "u", storageLimitMb := none }],
    folders := [],
    files := [mkFile "f1" (some "h") 4 0 none false],
    versions := [] }

/-- A user with a 1 MB ceiling whose single live file already occupies
exactly 1 MB. -/
def exDbFull : DB :=
  { users := [{ id := "u", storageLimitMb := some 1 }],
    folders := [],
    files := [mkFile "f1" (some "h") 1048576 0 none false],
    versions := [] }

/-- A small upload payload. -/
def exUpload : UploadInput :=
  { originalname := "new.txt", mimetype := "text/x", buffer := some [9, 9], size := 2 }

/-- Folder `A` with child folder `B`; file `f1` lives in `B`, file `f2`
at the root. -/
def exDbTree : DB :=
  { users := [{ id := "u", storageLimitMb := none }],
    folders := [{ id := "A", userId := "u", name := "A", parentId := none,
                  isDeleted := false, deletedAt := none, createdAt := 0, updatedAt := 0 },
                { id := "B", userId := "u", name := "B", parentId := some "A",
                  isDeleted := false, deletedAt := none, createdAt := 0, updatedAt := 0 }],
    files := [mkFile "f1" none 4 0 (some "B") false, mkFile "f2" none 4 0 none false],
    versions := [] }

/-- Folder `A` (live, root) with a soft-deleted child folder named `B`. -/
def exDbTreeDel : DB :=
  { users := [{ id := "u", storageLimitMb := none }],
    folders := [{ id := "A", userId := "u", name := "A", parentId := none,
                  isDeleted := false, deletedAt := none, createdAt := 0, updatedAt := 0 },
                { id := "B", userId := "u", name := "B", parentId := some "A",
                  isDeleted := true, deletedAt := some 5, createdAt := 0, updatedAt := 0 }],
    files := [], versions := [] }

/-- Three live files with digests `h1, h1, h2` (the claimed duplicate
scenario), created at times 0, 1, 2. -/
def exDbDup : DB :=
  { users := [{ id := "u", storageLimitMb := none }],
    folders := [],
    files := [mkFile "B" (some "h1") 20 1 none false,
              mkFile "A" (some "h1") 10 0 none false,
              mkFile "C" (some "h2") 30 2 none false],
    versions := [] }

/-- A placeholder digest function for concrete runs (the claims never
constrain the digest values themselves). -/
def exHash (bytes : List Nat) : String :=
  String.intercalate "-" (bytes.map (fun b => toString b))

/-! ## Helper lemmas -/

theorem foldl_add_eq_sum {α : Type} (g : α → Nat) (l : List α) (n : Nat) :
    l.foldl (fun s x => s + g x) n = n + (l.map g).sum := by
  induction l generalizing n with
  | nil => simp
  | cons a t ih => simp only [List.foldl_cons, List.map_cons, List.sum_cons, ih]; omega

/-- `ensureStorageAvailable` only ever fails with `QuotaExceeded`, and the
attempted-bytes payload is the requested amount. -/
theorem ensureStorageAvailable_error_shape (db : DB) (dflt : Int) (u : String)
    (b : Int) (e : ServiceError)
    (h : ensureStorageAvailable db dflt u b = .error e) :
    ∃ a, e = .QuotaExceeded a b := by
  by_cases hb : b ≤ 0
  · unfold ensureStorageAvailable at h
    rw [if_pos hb] at h
    exact absurd h (by simp)
  · unfold ensureStorageAvailable at h
    rw [if_neg hb] at h
    cases hrl : resolveUserLimitBytes db dflt u with
    | none => rw [hrl] at h; exact absurd h (by simp)
    | some L =>
      rw [hrl] at h
      simp only [] at h
      by_cases hov : (getUserUsageBytes db u : Int) + b > L
      · rw [if_pos hov] at h
        injection h with h
        exact ⟨_, h.symm⟩
      · rw [if_neg hov] at h
        exact absurd h (by simp)

/-- The exact error produced when the quota is exceeded. -/
theorem ensureStorageAvailable_exceeds (db : DB) (dflt : Int) (u : String)
    (b L : Int) (hb : 0 < b)
    (hL : resolveUserLimitBytes db dflt u = some L)
    (hover : (getUserUsageBytes db u : Int) + b > L) :
    ensureStorageAvailable db dflt u b =
      .error (.QuotaExceeded (max (L - getUserUsageBytes db u) 0) b) := by
  unfold ensureStorageAvailable
  rw [if_neg (by omega), hL]
  simp only []
  rw [if_pos hover]

/-! ## C3 — current usage -/

/-- Modelled from the spec wording of `currentUsageBytes(userId)`: the sum
of the sizes of all files owned by the user, regardless of delete state,
plus the sizes of all versions of files of that user.  Used as the
refinement target for `getUserUsageBytes`. -/
def currentUsageBytesSpec (db : DB) (userId : String) : Nat :=
  ((db.files.filter (fun f => f.userId == userId)).map (fun f => f.size)).sum
  + ((db.versions.filter (versionOwnedBy db userId)).map (fun v => v.size)).sum

/-- C3: the computed storage usage of a user equals the sum of the sizes
of all of that user's File rows — soft-deleted ones included — plus the
sum of the sizes of all FileVersion rows of that user's files; in
particular it is invariant under arbitrary re-marking of the files'
soft-delete flags and timestamps. -/
theorem getUserUsageBytes_spec (db : DB) (u : String)
    (mark : FileRow → Bool) (stamp : FileRow → Option Nat) :
    getUserUsageBytes db u = currentUsageBytesSpec db u ∧
    getUserUsageBytes
      { db with files := db.files.map (fun f =>
          { f with isDeleted := mark f, deletedAt := stamp f }) } u
      = getUserUsageBytes db u := by
  constructor
  · unfold getUserUsageBytes currentUsageBytesSpec
    rw [foldl_add_eq_sum, foldl_add_eq_sum]
    simp
  · unfold getUserUsageBytes
    have hfiles :
        List.filter (fun f => f.userId == u)
          (db.files.map (fun f => { f with isDeleted := mark f, deletedAt := stamp f }))
          = List.map (fun f => { f with isDeleted := mark f, deletedAt := stamp f })
              (List.filter (fun f => f.userId == u) db.files) := by
      rw [List.filter_map]
      rfl
    have hvers : ∀ v : VersionRow,
        versionOwnedBy
          { db with files := db.files.map (fun f =>
              { f with isDeleted := mark f, deletedAt := stamp f }) } u v
        = versionOwnedBy db u v := by
      intro v
      unfold versionOwnedBy
      rw [List.any_map]
      rfl
    simp only [hfiles]
    rw [List.filter_congr (fun v _ => hvers v)]
    simp only [foldl_add_eq_sum, List.map_map]
    rfl

/-! ## C4 — storage-limit resolution -/

/-- C4 (counterexample): a user whose ceiling is set to `0` MB resolves to
the unbounded sentinel (`none`), not to the positive process default, so
the claimed fallback does not happen. -/
theorem resolveUserLimitBytes_zero_counterexample :
    exDbLimit0.users = [{ id := "u", storageLimitMb := some 0 }] ∧
    resolveUserLimitBytes exDbLimit0 5120 "u" = none ∧
    resolveUserLimitBytes exDbLimit0 5120 "u" ≠ some (5120 * MB_IN_BYTES) := by
  refine ⟨rfl, by decide, by decide⟩

/-- C4 (amended): the effective limit is the user ceiling when it is set
and positive; when the ceiling is unset the positive process default
applies; a non-positive resolved megabyte value — including a user
ceiling that is set but zero or negative — yields the unbounded sentinel
rather than falling back to the default. -/
theorem resolveUserLimitBytes_cases (db : DB) (dflt : Int) (uid : String)
    (usr : UserRow) (hfind : db.users.find? (fun u => u.id == uid) = some usr) :
    (∀ m : Int, usr.storageLimitMb = some m → 0 < m →
      resolveUserLimitBytes db dflt uid = some (m * MB_IN_BYTES)) ∧
    (∀ m : Int, usr.storageLimitMb = some m → m ≤ 0 →
      resolveUserLimitBytes db dflt uid = none) ∧
    (usr.storageLimitMb = none → 0 < dflt →
      resolveUserLimitBytes db dflt uid = some (dflt * MB_IN_BYTES)) ∧
    (usr.storageLimitMb = none → dflt ≤ 0 →
      resolveUserLimitBytes db dflt uid = none) := by
  refine ⟨?_, ?_, ?_, ?_⟩
  · intro m hset hpos
    unfold resolveUserLimitBytes
    rw [hfind]
    simp only [hset, Option.getD_some]
    rw [if_neg (by omega)]
  · intro m hset hnonpos
    unfold resolveUserLimitBytes
    rw [hfind]
    simp only [hset, Option.getD_some]
    rw [if_pos hnonpos]
  · intro hunset hpos
    unfold resolveUserLimitBytes
    rw [hfind]
    simp only [hunset, Option.getD_none]
    rw [if_neg (by omega)]
  · intro hunset hnonpos
    unfold resolveUserLimitBytes
    rw [hfind]
    simp only [hunset, Option.getD_none]
    rw [if_pos hnonpos]

/-- C4 (witness): a 3 MB ceiling resolves to exactly 3 · 2²⁰ bytes. -/
theorem resolveUserLimitBytes_cases_witness :
    resolveUserLimitBytes exDbLimit3 7 "u" = some (3 * MB_IN_BYTES) :=
  (resolveUserLimitBytes_cases exDbLimit3 7 "u"
    { id := "u", storageLimitMb := some 3 } (by decide)).1 3 rfl (by decide)

/-! ## C2 — quota enforcement before persistence -/

/-- C2: an upload (or version-replacing upload) of more than zero bytes by
a user whose usage plus the new size exceeds the resolved limit returns
exactly the `QuotaExceeded` error carrying available versus attempted
bytes; no `.ok` result (hence no new or modified row) is produced, in
either the create branch or the version branch. -/
theorem uploadFile_quota_exceeded (db : DB) (dflt : Int) (hash : List Nat → String)
    (u : String) (file : UploadInput) (isVersion : Bool)
    (parentFileId folderId : Option String) (now : Nat) (freshId : String)
    (buf : List Nat) (hbuf : file.buffer = some buf)
    (L : Int) (hL : resolveUserLimitBytes db dflt u = some L)
    (hpos : 0 < file.size)
    (hover : (getUserUsageBytes db u : Int) + (file.size : Int) > L) :
    ((isVersion && jsTruthy parentFileId) = false →
      uploadFile db dflt hash u file isVersion parentFileId folderId now freshId
        = .error (.QuotaExceeded (max (L - getUserUsageBytes db u) 0) file.size)) ∧
    (∀ ef, (isVersion && jsTruthy parentFileId) = true →
      db.files.find? (fun f => f.id == parentFileId.getD "" && f.userId == u) = some ef →
      uploadFile db dflt hash u file isVersion parentFileId folderId now freshId
        = .error (.QuotaExceeded (max (L - getUserUsageBytes db u) 0) file.size)) := by
  have hES := ensureStorageAvailable_exceeds db dflt u file.size L
    (by exact_mod_cast hpos) hL hover
  constructor
  · intro hcond
    unfold uploadFile
    rw [hbuf]
    simp only [hcond, Bool.false_eq_true, if_false]
    rw [hES]
  · intro ef hcond hfind
    unfold uploadFile
    rw [hbuf]
    simp only [hcond, if_true]
    rw [hfind]
    simp only []
    rw [hES]

/-- C2 (witness): a user at a full 1 MB quota uploading 2 more bytes gets
`QuotaExceeded` with 0 bytes available and 2 attempted. -/
theorem uploadFile_quota_exceeded_witness :
    uploadFile exDbFull 5120 exHash "u" exUpload false none none 7 "n1"
      = .error (.QuotaExceeded 0 2) := by
  have h := (uploadFile_quota_exceeded exDbFull 5120 exHash "u" exUpload false
    none none 7 "n1" [9, 9] rfl 1048576 (by decide) (by decide) (by decide)).1 rfl
  rw [h]
  decide

/-! ## C10 — blank folder ids resolve to the root -/

/-- C10: on a create upload, a missing, empty, whitespace-only or literal
`"null"` folder id stores the file at the root (`folderId = null`);
`FolderNotFound` is raised exactly for a non-blank folder id that names no
folder of the requesting user, and a non-blank id naming an owned folder
is stored as given. -/
theorem uploadFile_folder_resolution (db : DB) (dflt : Int) (hash : List Nat → String)
    (u : String) (file : UploadInput) (folderId : Option String)
    (now : Nat) (freshId : String) (buf : List Nat)
    (hbuf : file.buffer = some buf)
    (hquota : ensureStorageAvailable db dflt u file.size = .ok ()) :
    (isBlankFolderId none = true ∧ isBlankFolderId (some "") = true ∧
      isBlankFolderId (some "null") = true ∧
      ∀ s : String, jsTrim s = "" → isBlankFolderId (some s) = true) ∧
    (isBlankFolderId folderId = true →
      ∃ res, uploadFile db dflt hash u file false none folderId now freshId = .ok res ∧
        res.file.folderId = none ∧
        res.db.files = db.files ++ [res.file]) ∧
    (isBlankFolderId folderId = false →
      (uploadFile db dflt hash u file false none folderId now freshId
          = .error .FolderNotFound
        ↔ db.folders.find? (fun f => f.id == folderId.getD "" && f.userId == u) = none)) ∧
    (∀ fol, isBlankFolderId folderId = false →
      db.folders.find? (fun f => f.id == folderId.getD "" && f.userId == u) = some fol →
      ∃ res, uploadFile db dflt hash u file false none folderId now freshId = .ok res ∧
        res.file.folderId = some fol.id) := by
  refine ⟨⟨rfl, rfl, rfl, ?_⟩, ?_, ?_, ?_⟩
  · intro s hs
    simp [isBlankFolderId, hs]
  · intro hblank
    unfold uploadFile
    rw [hbuf]
    simp only [Bool.false_and, Bool.false_eq_true, if_false]
    rw [hquota]
    unfold validateFolderOwnership
    rw [if_pos hblank]
    exact ⟨_, rfl, rfl, rfl⟩
  · intro hblank
    unfold uploadFile
    rw [hbuf]
    simp only [Bool.false_and, Bool.false_eq_true, if_false]
    rw [hquota]
    unfold validateFolderOwnership
    rw [if_neg (by simp [hblank])]
    cases hf : db.folders.find? (fun f => f.id == folderId.getD "" && f.userId == u) with
    | none => simp
    | some fol => simp
  · intro fol hblank hf
    unfold uploadFile
    rw [hbuf]
    simp only [Bool.false_and, Bool.false_eq_true, if_false]
    rw [hquota]
    unfold validateFolderOwnership
    rw [if_neg (by simp [hblank]), hf]
    exact ⟨_, rfl, rfl⟩

/-- C10 (witness): an upload with the literal `"null"` folder id succeeds
and lands at the root. -/
theorem uploadFile_folder_resolution_witness :
    isBlankFolderId (some "null") = true ∧
    (uploadFile exDbLive 5120 exHash "u" exUpload false none (some "null") 7 "n1").map
      (fun res => res.file.folderId) = .ok none := by
  have h := (uploadFile_folder_resolution exDbLive 5120 exHash "u" exUpload
    (some "null") 7 "n1" [9, 9] rfl (by decide)).2.1 (by decide)
  obtain ⟨res, hrun, hfol, _⟩ := h
  exact ⟨rfl, by rw [hrun]; simp [Except.map, hfol]⟩

/-! ## C5 — parent lookup for version uploads -/

/-- C5 (counterexample): the parent of a version upload is looked up with
no delete-state filter, so a soft-deleted parent file accepts a new
version instead of failing with `ParentNotFound`. -/
theorem uploadFile_version_deletedParent_counterexample :
    exDbDeleted.files.find? (fun f => f.id == "f1" && f.userId == "u")
        = some (mkFile "f1" (some "h") 4 0 none true) ∧
    (mkFile "f1" (some "h") 4 0 none true).isDeleted = true ∧
    (uploadFile exDbDeleted 5120 exHash "u" exUpload true (some "f1") none 7 "v1").isOk
        = true ∧
    uploadFile exDbDeleted 5120 exHash "u" exUpload true (some "f1") none 7 "v1"
        ≠ .error .ParentNotFound := by
  refine ⟨by decide, by decide, by decide, by decide⟩

/-- C5 (amended): a version upload fails with `ParentNotFound` exactly
when no file with the given id — in any deletion state — is owned by the
requesting user; when such a file exists (soft-deleted or not) and the
quota admits the bytes, the upload succeeds. -/
theorem uploadFile_version_parent_lookup (db : DB) (dflt : Int)
    (hash : List Nat → String) (u : String) (file : UploadInput) (p : String)
    (folderId : Option String) (now : Nat) (freshId : String) (buf : List Nat)
    (hbuf : file.buffer = some buf) (hp : p ≠ "") :
    (uploadFile db dflt hash u file true (some p) folderId now freshId
        = .error .ParentNotFound
      ↔ db.files.find? (fun f => f.id == p && f.userId == u) = none) ∧
    (∀ ef, db.files.find? (fun f => f.id == p && f.userId == u) = some ef →
      ensureStorageAvailable db dflt u file.size = .ok () →
      ∃ res, uploadFile db dflt hash u file true (some p) folderId now freshId
        = .ok res) := by
  have hcond : (true && jsTruthy (some p)) = true := by
    simp [jsTruthy, hp]
  constructor
  · unfold uploadFile
    rw [hbuf]
    simp only [hcond, if_true, Option.getD_some]
    cases hf : db.files.find? (fun f => f.id == p && f.userId == u) with
    | none => simp
    | some ef =>
      simp only []
      cases he : ensureStorageAvailable db dflt u file.size with
      | error e =>
        obtain ⟨a, ha⟩ := ensureStorageAvailable_error_shape db dflt u file.size e he
        subst ha
        simp
      | ok uu => simp
  · intro ef hf hq
    unfold uploadFile
    rw [hbuf]
    simp only [hcond, if_true, Option.getD_some]
    rw [hf]
    simp only []
    rw [hq]
    exact ⟨_, rfl⟩

/-- C5 (witness): with a live owned parent and no quota pressure the
amended characterization applies: the lookup succeeds and the upload
returns `.ok`. -/
theorem uploadFile_version_parent_lookup_witness :
    ("f1" : String) ≠ "" ∧
    (uploadFile exDbLive 5120 exHash "u" exUpload true (some "f1") none 7 "v1").isOk
      = true := by
  have h := (uploadFile_version_parent_lookup exDbLive 5120 exHash "u" exUpload
    "f1" none 7 "v1" [9, 9] rfl (by decide)).2
    (mkFile "f1" (some "h") 4 0 none false) (by decide) (by decide)
  obtain ⟨res, hrun⟩ := h
  exact ⟨by decide, by rw [hrun]; rfl⟩

/-! ## C1 — version archival -/

/-- C1: a successful version-replacing upload archives the parent file as
a new `FileVersion` whose content, size and mimeType are the pre-state
values of the parent, numbered `count(existing versions) + 1`; the
version count of the parent rises by exactly one, every previously
assigned number (when the numbers were at most the count) is strictly
below the new number which is at least 1, the parent row afterwards holds
the new payload, size and mimeType, and all other file rows survive
unchanged. -/
theorem uploadFile_version_archives (db : DB) (dflt : Int)
    (hash : List Nat → String) (u : String) (file : UploadInput) (p : String)
    (folderId : Option String) (now : Nat) (freshId : String) (buf : List Nat)
    (ef : FileRow)
    (hbuf : file.buffer = some buf) (hp : p ≠ "")
    (hfind : db.files.find? (fun f => f.id == p && f.userId == u) = some ef)
    (hquota : ensureStorageAvailable db dflt u file.size = .ok ())
    (hnum : ∀ v ∈ db.versions, v.fileId = p →
      v.version ≤ (db.versions.filter (fun v => v.fileId == p)).length) :
    ∃ res, uploadFile db dflt hash u file true (some p) folderId now freshId
        = .ok res ∧
      res.db.versions = db.versions ++
        [{ id := freshId, fileId := p, content := ef.content, size := ef.size,
           version := (db.versions.filter (fun v => v.fileId == p)).length + 1,
           mimeType := ef.mimeType, createdAt := now }] ∧
      (res.db.versions.filter (fun v => v.fileId == p)).length
        = (db.versions.filter (fun v => v.fileId == p)).length + 1 ∧
      (∀ v ∈ db.versions, v.fileId = p →
        v.version < (db.versions.filter (fun v => v.fileId == p)).length + 1) ∧
      1 ≤ (db.versions.filter (fun v => v.fileId == p)).length + 1 ∧
      res.file.id = ef.id ∧ res.file.content = buf ∧ res.file.size = file.size ∧
      res.file.mimeType = file.mimetype ∧ res.file ∈ res.db.files ∧
      ef.userId = u ∧
      (∀ g ∈ db.files, g.id ≠ p → g ∈ res.db.files) := by
  have hcond : (true && jsTruthy (some p)) = true := by
    simp [jsTruthy, hp]
  have hpred := List.find?_some hfind
  rw [Bool.and_eq_true, beq_iff_eq, beq_iff_eq] at hpred
  obtain ⟨hid, huser⟩ := hpred
  have hmem : ef ∈ db.files := List.mem_of_find?_eq_some hfind
  have hrun : uploadFile db dflt hash u file true (some p) folderId now freshId
      = .ok
        { db :=
            { db with
              versions := db.versions ++
                [{ id := freshId, fileId := p, content := ef.content,
                   size := ef.size,
                   version := (db.versions.filter (fun v => v.fileId == p)).length + 1,
                   mimeType := ef.mimeType, createdAt := now }]
              files := db.files.map (fun f =>
                if f.id = p then
                  { ef with
                    name := jsOrString (sanitizeSegment file.originalname) ef.name
                    originalName := file.originalname
                    size := file.size
                    mimeType := file.mimetype
                    content := buf
                    updatedAt := now }
                else f) }
          file :=
            { ef with
              name := jsOrString (sanitizeSegment file.originalname) ef.name
              originalName := file.originalname
              size := file.size
              mimeType := file.mimetype
              content := buf
              updatedAt := now } } := by
    unfold uploadFile
    rw [hbuf]
    simp only [hcond, if_true, Option.getD_some]
    rw [hfind]
    simp only []
    rw [hquota]
  refine ⟨_, hrun, rfl, ?_, ?_, ?_, rfl, rfl, rfl, rfl, ?_, huser, ?_⟩
  · simp only [List.filter_append, List.length_append]
    simp
  · intro v hv hvp
    exact Nat.lt_succ_of_le (hnum v hv hvp)
  · exact Nat.le_add_left 1 _
  · refine List.mem_map.mpr ⟨ef, hmem, ?_⟩
    rw [if_pos hid]
  · intro g hg hgp
    refine List.mem_map.mpr ⟨g, hg, ?_⟩
    rw [if_neg hgp]

/-- C1 (witness): uploading a 2-byte version over the single live file of
`exDbLive` (no versions yet) succeeds, and the parent's version count
goes from 0 to 1. -/
theorem uploadFile_version_archives_witness :
    (exDbLive.versions.filter (fun v => v.fileId == "f1")).length = 0 ∧
    (uploadFile exDbLive 5120 exHash "u" exUpload true (some "f1") none 7 "v1").map
      (fun res => (res.db.versions.filter (fun v => v.fileId == "f1")).length)
      = .ok 1 := by
  obtain ⟨res, hrun, _, hcount, _⟩ :=
    uploadFile_version_archives exDbLive 5120 exHash "u" exUpload "f1" none 7 "v1"
      [9, 9] (mkFile "f1" (some "h") 4 0 none false) rfl (by decide) (by decide)
      (by decide) (by intro v hv; simp [exDbLive] at hv)
  refine ⟨rfl, ?_⟩
  rw [hrun]
  simp only [Except.map]
  rw [hcount]
  rfl

/-! ## C6 — soft delete -/

/-- C6 (counterexample): soft delete looks the file up with no
delete-state filter, so soft-deleting an already soft-deleted file
succeeds and refreshes its deletion timestamp (5 → 9) instead of failing
with `FileNotFound`. -/
theorem deleteFile_deleted_counterexample :
    exDbDeleted.files = [mkFile "f1" (some "h") 4 0 none true] ∧
    (mkFile "f1" (some "h") 4 0 none true).isDeleted = true ∧
    (mkFile "f1" (some "h") 4 0 none true).deletedAt = some 5 ∧
    deleteFile exDbDeleted "f1" "u" false 9 =
      .ok { exDbDeleted with
            files := [{ mkFile "f1" (some "h") 4 0 none true with
                        deletedAt := some 9 }] } := by
  refine ⟨rfl, rfl, rfl, by decide⟩

/-- C6 (amended): soft delete fails with `FileNotFound` exactly when no
file with the given id — in any deletion state — is owned by the
requesting user; on success it sets `isDeleted := true` and
`deletedAt := now` on the target (refreshing the timestamp when the file
was already soft-deleted) and leaves every other row unchanged. -/
theorem deleteFile_soft_spec (db : DB) (fid u : String) (now : Nat) :
    (deleteFile db fid u false now = .error .FileNotFound ↔
      db.files.find? (fun f => f.id == fid && f.userId == u) = none) ∧
    (∀ f0, db.files.find? (fun f => f.id == fid && f.userId == u) = some f0 →
      ∃ db2, deleteFile db fid u false now = .ok db2 ∧
        db2.files = db.files.map (fun g =>
          if g.id = fid then { g with isDeleted := true, deletedAt := some now }
          else g) ∧
        (∀ g ∈ db.files, g.id ≠ fid → g ∈ db2.files) ∧
        (∀ g ∈ db2.files, g.id = fid → g.isDeleted = true ∧ g.deletedAt = some now) ∧
        db2.folders = db.folders ∧ db2.versions = db.versions) := by
  constructor
  · unfold deleteFile
    cases hf : db.files.find? (fun f => f.id == fid && f.userId == u) with
    | none => simp
    | some f0 => simp
  · intro f0 hf
    have hrun : deleteFile db fid u false now
        = .ok { db with files := db.files.map (fun g =>
            if g.id = fid then { g with isDeleted := true, deletedAt := some now }
            else g) } := by
      unfold deleteFile
      rw [hf]
      simp only []
      rw [if_neg (by simp)]
    refine ⟨_, hrun, rfl, ?_, ?_, rfl, rfl⟩
    · intro g hg hgid
      refine List.mem_map.mpr ⟨g, hg, ?_⟩
      rw [if_neg hgid]
    · intro g hg hgid
      simp only [List.mem_map] at hg
      obtain ⟨g0, hg0, hstep⟩ := hg
      by_cases h0 : g0.id = fid
      · rw [if_pos h0] at hstep
        rw [← hstep]
        exact ⟨rfl, rfl⟩
      · rw [if_neg h0] at hstep
        rw [← hstep] at hgid
        exact absurd hgid h0

/-- C6 (witness): soft-deleting the live file of `exDbLive` at time 9
marks it deleted with timestamp 9. -/
theorem deleteFile_soft_spec_witness :
    (deleteFile exDbLive "f1" "u" false 9).map (fun db2 =>
      db2.files.map (fun g => (g.isDeleted, g.deletedAt)))
      = .ok [(true, some 9)] := by
  obtain ⟨db2, hrun, hfiles, _⟩ :=
    (deleteFile_soft_spec exDbLive "f1" "u" 9).2
      (mkFile "f1" (some "h") 4 0 none false) (by decide)
  rw [hrun]
  simp only [Except.map]
  rw [hfiles]
  rfl

/-! ## C8 — duplicate folder names -/

/-- C8 (counterexample): the unique index on `(userId, name, parentId)`
never fires for root-level folders (SQLite treats NULL as distinct), so a
second live root folder named `A` is created successfully instead of
failing with `DuplicateName`; conversely, under a non-null parent even a
soft-deleted sibling of the same name blocks creation. -/
theorem createFolder_duplicate_counterexample :
    (exDbTree.folders.filter (fun f =>
        f.parentId == (none : Option String) && f.name == "A" && !f.isDeleted)).length
      = 1 ∧
    (createFolder exDbTree "u" "A" none 3 "N").isOk = true ∧
    (exDbTreeDel.folders.filter (fun f => f.name == "B")).map (fun f => f.isDeleted)
      = [true] ∧
    createFolder exDbTreeDel "u" "B" (some "A") 3 "N" = .error .DuplicateName := by
  refine ⟨by decide, by decide, by decide, by decide⟩

/-- C8 (amended): creating a folder fails with `DuplicateName` exactly
when the stored parent is non-null and some existing folder row of the
user — soft-deleted or not — has the same trimmed name under the same
parent; at the root level (`parentId` null or blank) duplicate names are
never rejected, because the underlying unique index treats NULL parents
as distinct. -/
theorem createFolder_spec (db : DB) (u nm : String) (parentId : Option String)
    (now : Nat) (freshId : String) :
    (jsTrim nm = "" → createFolder db u nm parentId now freshId = .error .InvalidName) ∧
    (jsTrim nm ≠ "" → jsTruthy parentId = false →
      ∃ res, createFolder db u nm parentId now freshId = .ok res ∧
        res.2.parentId = none ∧ res.2.name = jsTrim nm ∧
        res.1.folders = db.folders ++ [res.2]) ∧
    (∀ p, jsTrim nm ≠ "" → parentId = some p → p ≠ "" →
      db.folders.find? (fun f => f.id == p && f.userId == u) = none →
      createFolder db u nm parentId now freshId = .error .ParentFolderNotFound) ∧
    (∀ p par, jsTrim nm ≠ "" → parentId = some p → p ≠ "" →
      db.folders.find? (fun f => f.id == p && f.userId == u) = some par →
      (createFolder db u nm parentId now freshId = .error .DuplicateName ↔
        ∃ g ∈ db.folders, g.userId = u ∧ g.name = jsTrim nm ∧ g.parentId = some p)) ∧
    (∀ p par, jsTrim nm ≠ "" → parentId = some p → p ≠ "" →
      db.folders.find? (fun f => f.id == p && f.userId == u) = some par →
      uniqueIndexViolation db.folders u (jsTrim nm) (some p) = false →
      ∃ res, createFolder db u nm parentId now freshId = .ok res ∧
        res.2.parentId = some p ∧ res.2.name = jsTrim nm) := by
  have hviol : ∀ p : String,
      uniqueIndexViolation db.folders u (jsTrim nm) (some p) = true ↔
        ∃ g ∈ db.folders, g.userId = u ∧ g.name = jsTrim nm ∧ g.parentId = some p := by
    intro p
    unfold uniqueIndexViolation
    rw [List.any_eq_true]
    constructor
    · rintro ⟨g, hg, hpred⟩
      rw [Bool.and_eq_true, Bool.and_eq_true, beq_iff_eq, beq_iff_eq, beq_iff_eq]
        at hpred
      exact ⟨g, hg, hpred.1.1, hpred.1.2, hpred.2⟩
    · rintro ⟨g, hg, h1, h2, h3⟩
      refine ⟨g, hg, ?_⟩
      rw [Bool.and_eq_true, Bool.and_eq_true, beq_iff_eq, beq_iff_eq, beq_iff_eq]
      exact ⟨⟨h1, h2⟩, h3⟩
  refine ⟨?_, ?_, ?_, ?_, ?_⟩
  · intro htrim
    unfold createFolder
    rw [if_pos htrim]
  · intro htrim hfalse
    unfold createFolder
    rw [if_neg htrim]
    simp only [hfalse, Bool.false_eq_true, if_false]
    have : uniqueIndexViolation db.folders u (jsTrim nm) none = false := rfl
    rw [this]
    simp only [Bool.false_eq_true, if_false]
    exact ⟨_, rfl, rfl, rfl, rfl⟩
  · intro p htrim hpid hp hfind
    subst hpid
    unfold createFolder
    rw [if_neg htrim]
    have hcond : jsTruthy (some p) = true := by simp [jsTruthy, hp]
    simp only [hcond, if_true, Option.getD_some]
    rw [hfind]
  · intro p par htrim hpid hp hfind
    subst hpid
    unfold createFolder
    rw [if_neg htrim]
    have hcond : jsTruthy (some p) = true := by simp [jsTruthy, hp]
    simp only [hcond, if_true, Option.getD_some]
    rw [hfind]
    simp only []
    rw [← hviol p]
    cases hv : uniqueIndexViolation db.folders u (jsTrim nm) (some p) with
    | true => simp
    | false => simp
  · intro p par htrim hpid hp hfind hnov
    subst hpid
    unfold createFolder
    rw [if_neg htrim]
    have hcond : jsTruthy (some p) = true := by simp [jsTruthy, hp]
    simp only [hcond, if_true, Option.getD_some]
    rw [hfind]
    simp only []
    rw [hnov]
    simp only [Bool.false_eq_true, if_false]
    exact ⟨_, rfl, rfl, rfl⟩

/-- C8 (witness): under the non-null parent `A` with only a live child
named `B`, creating `C` succeeds while creating `B` is rejected as a
duplicate. -/
theorem createFolder_spec_witness :
    (createFolder exDbTree "u" "C" (some "A") 3 "N").map (fun res => res.2.name)
      = .ok "C" ∧
    createFolder exDbTree "u" "B" (some "A") 3 "N" = .error .DuplicateName := by
  constructor
  · obtain ⟨res, hrun, _, hname⟩ :=
      (createFolder_spec exDbTree "u" "C" (some "A") 3 "N").2.2.2.2 "A"
        { id := "A", userId := "u", name := "A", parentId := none,
          isDeleted := false, deletedAt := none, createdAt := 0, updatedAt := 0 }
        (by decide) rfl (by decide) (by decide) (by decide)
    rw [hrun]
    simp only [Except.map]
    rw [hname]
    rfl
  · exact ((createFolder_spec exDbTree "u" "B" (some "A") 3 "N").2.2.2.1 "A"
      { id := "A", userId := "u", name := "A", parentId := none,
        isDeleted := false, deletedAt := none, createdAt := 0, updatedAt := 0 }
      (by decide) rfl (by decide) (by decide)).mpr
      ⟨{ id := "B", userId := "u", name := "B", parentId := some "A",
         isDeleted := false, deletedAt := none, createdAt := 0, updatedAt := 0 },
       by decide, rfl, rfl, rfl⟩

/-! ## C7 — cascading folder soft-delete -/

theorem collectSubtree_self (A : List IdParent) (fuel : Nat) (r : String) :
    r ∈ collectSubtree A fuel r := by
  cases fuel with
  | zero => simp [collectSubtree]
  | succ n => simp [collectSubtree]

/-- Every member of the computed closure is either the root or the id of
one of the loaded rows. -/
theorem collectSubtree_subset (A : List IdParent) :
    ∀ (fuel : Nat) (r : String), ∀ s ∈ collectSubtree A fuel r,
      s = r ∨ s ∈ A.map (fun ip => ip.id) := by
  intro fuel
  induction fuel with
  | zero =>
    intro r s hs
    simp only [collectSubtree, List.mem_singleton] at hs
    exact Or.inl hs
  | succ n ih =>
    intro r s hs
    simp only [collectSubtree, List.mem_cons] at hs
    rcases hs with h | h
    · exact Or.inl h
    · rw [List.mem_flatMap] at h
      obtain ⟨c, hc, hsc⟩ := h
      rcases ih c.id s hsc with h2 | h2
      · have hcA : c ∈ A := List.mem_of_mem_filter hc
        exact Or.inr (h2 ▸ List.mem_map_of_mem _ hcA)
      · exact Or.inr h2

/-- Counting rows by a duplicate-free id set: when the row ids are unique
and every id of `S` is the id of some row owned by `u`, the rows matching
`(owned by u, id ∈ S)` are exactly `S.length` many. -/
theorem length_filter_by_ids (folders : List FolderRow) (u : String)
    (S : List String)
    (hnodIds : (folders.map (fun g => g.id)).Nodup) (hS : S.Nodup)
    (hcov : ∀ s ∈ S, ∃ g ∈ folders, g.id = s ∧ g.userId = u) :
    (folders.filter (fun g => decide (g.userId = u ∧ g.id ∈ S))).length
      = S.length := by
  have hsub : ((folders.filter (fun g => decide (g.userId = u ∧ g.id ∈ S))).map
      (fun g => g.id)).Sublist (folders.map (fun g => g.id)) :=
    (List.filter_sublist folders).map _
  have hnodT := List.Nodup.sublist hsub hnodIds
  have hext : ∀ a,
      (a ∈ (folders.filter (fun g => decide (g.userId = u ∧ g.id ∈ S))).map
        (fun g => g.id)) ↔ a ∈ S := by
    intro a
    constructor
    · intro ha
      rw [List.mem_map] at ha
      obtain ⟨g, hg, hid⟩ := ha
      rw [List.mem_filter] at hg
      have hp := of_decide_eq_true hg.2
      exact hid ▸ hp.2
    · intro ha
      obtain ⟨g, hgmem, hgid, hgu⟩ := hcov a ha
      rw [List.mem_map]
      refine ⟨g, ?_, hgid⟩
      rw [List.mem_filter]
      exact ⟨hgmem, decide_eq_true ⟨hgu, hgid ▸ ha⟩⟩
  have hperm : ((folders.filter (fun g => decide (g.userId = u ∧ g.id ∈ S))).map
      (fun g => g.id)).Perm S :=
    (List.perm_ext_iff_of_nodup hnodT hS).mpr hext
  calc (folders.filter (fun g => decide (g.userId = u ∧ g.id ∈ S))).length
      = ((folders.filter (fun g => decide (g.userId = u ∧ g.id ∈ S))).map
          (fun g => g.id)).length := (List.length_map _ _).symm
    _ = S.length := hperm.length_eq

/-- C7 (counterexample): `deleteFolder` reads the clock once for the file
update and once (later) for the folder update; when the clock advances
between the two reads (here from 0 to 1), the soft-deleted file inside
the subtree carries timestamp 0 while the folders carry timestamp 1, so
the affected rows are not all stamped with the same deletion timestamp
(the file outside the subtree stays untouched). -/
theorem deleteFolder_timestamp_counterexample :
    (deleteFolder exDbTree "u" "A" 0 1).map (fun db2 =>
        (db2.files.map (fun f => (f.isDeleted, f.deletedAt)),
         db2.folders.map (fun g => (g.isDeleted, g.deletedAt))))
      = .ok ([(true, some 0), (false, none)],
             [(true, some 1), (true, some 1)]) ∧
    (some 0 : Option Nat) ≠ some 1 := by
  refine ⟨by decide, by decide⟩

/-- C7 (amended): on a live owned folder, `deleteFolder` soft-deletes
exactly the folders of the computed descendant closure (N + 1 rows,
counted precisely when ids are unique and the closure is duplicate-free)
and exactly the live files whose folder lies in the closure, leaving
every other file and folder row unchanged; all affected files carry the
timestamp of the first clock read and all affected folders the timestamp
of the second clock read, which may differ. -/
theorem deleteFolder_subtree_spec (db : DB) (u fid : String) (t1 t2 : Nat)
    (root : FolderRow)
    (hroot : db.folders.find? (fun f =>
      f.id == fid && f.userId == u && !f.isDeleted) = some root)
    (hnodIds : (db.folders.map (fun g => g.id)).Nodup)
    (hnodS : (deleteClosure db u fid).Nodup) :
    ∃ db2, deleteFolder db u fid t1 t2 = .ok db2 ∧
      fid ∈ deleteClosure db u fid ∧
      (∀ s ∈ deleteClosure db u fid,
        ∃ g ∈ db.folders, g.id = s ∧ g.userId = u ∧ g.isDeleted = false) ∧
      (db.folders.filter (fun g =>
          decide (g.userId = u ∧ g.id ∈ deleteClosure db u fid))).length
        = (deleteClosure db u fid).length ∧
      db2.folders = db.folders.map (fun g =>
        if g.userId = u ∧ g.id ∈ deleteClosure db u fid then
          { g with isDeleted := true, deletedAt := some t2 }
        else g) ∧
      (∀ g ∈ db.folders, ¬(g.userId = u ∧ g.id ∈ deleteClosure db u fid) →
        g ∈ db2.folders) ∧
      db2.files = db.files.map (fun f =>
        if f.userId = u ∧ (∃ x ∈ deleteClosure db u fid, f.folderId = some x) ∧
            f.isDeleted = false then
          { f with isDeleted := true, deletedAt := some t1 }
        else f) ∧
      (∀ f ∈ db.files,
        ¬(f.userId = u ∧ (∃ x ∈ deleteClosure db u fid, f.folderId = some x) ∧
            f.isDeleted = false) → f ∈ db2.files) ∧
      (∀ f ∈ db.files, f.userId = u →
        (∃ x ∈ deleteClosure db u fid, f.folderId = some x) →
        f.isDeleted = false →
        { f with isDeleted := true, deletedAt := some t1 } ∈ db2.files) ∧
      db2.users = db.users ∧ db2.versions = db.versions := by
  have hrootPred := List.find?_some hroot
  rw [Bool.and_eq_true, Bool.and_eq_true, beq_iff_eq, beq_iff_eq,
    Bool.not_eq_eq_eq_not, Bool.not_true] at hrootPred
  obtain ⟨⟨hrid, hruser⟩, hrlive⟩ := hrootPred
  have hrootMem : root ∈ db.folders := List.mem_of_find?_eq_some hroot
  have hcov : ∀ s ∈ deleteClosure db u fid,
      ∃ g ∈ db.folders, g.id = s ∧ g.userId = u ∧ g.isDeleted = false := by
    intro s hs
    rcases collectSubtree_subset _ _ _ s hs with rfl | hmem
    · exact ⟨root, hrootMem, hrid, hruser, hrlive⟩
    · rw [List.map_map, List.mem_map] at hmem
      obtain ⟨g, hg, hgid⟩ := hmem
      rw [List.mem_filter] at hg
      have hq := hg.2
      rw [Bool.and_eq_true, beq_iff_eq, Bool.not_eq_eq_eq_not, Bool.not_true] at hq
      exact ⟨g, hg.1, hgid, hq.1, hq.2⟩
  have hrun : deleteFolder db u fid t1 t2
      = .ok { db with
              files := db.files.map (fun f =>
                if f.userId = u ∧
                    (∃ x ∈ deleteClosure db u fid, f.folderId = some x) ∧
                    f.isDeleted = false then
                  { f with isDeleted := true, deletedAt := some t1 }
                else f)
              folders := db.folders.map (fun g =>
                if g.userId = u ∧ g.id ∈ deleteClosure db u fid then
                  { g with isDeleted := true, deletedAt := some t2 }
                else g) } := by
    unfold deleteFolder
    rw [hroot]
  refine ⟨_, hrun, collectSubtree_self _ _ _, hcov, ?_, rfl, ?_, rfl, ?_, ?_, rfl, rfl⟩
  · exact length_filter_by_ids db.folders u (deleteClosure db u fid)
      hnodIds hnodS (fun s hs => (hcov s hs).imp
        (fun g hg => ⟨hg.1, hg.2.1, hg.2.2.1⟩))
  · intro g hg hcond
    refine List.mem_map.mpr ⟨g, hg, ?_⟩
    rw [if_neg hcond]
  · intro f hf hcond
    refine List.mem_map.mpr ⟨f, hf, ?_⟩
    rw [if_neg hcond]
  · intro f hf h1 h2 h3
    refine List.mem_map.mpr ⟨f, hf, ?_⟩
    rw [if_pos ⟨h1, h2, h3⟩]

/-- C7 (witness): deleting folder `A` of `exDbTree` computes the closure
`[A, B]` (so N + 1 = 2 folders) and succeeds. -/
theorem deleteFolder_subtree_spec_witness :
    deleteClosure exDbTree "u" "A" = ["A", "B"] ∧
    (deleteFolder exDbTree "u" "A" 0 1).isOk = true := by
  obtain ⟨db2, hrun, _⟩ :=
    deleteFolder_subtree_spec exDbTree "u" "A" 0 1
      { id := "A", userId := "u", name := "A", parentId := none,
        isDeleted := false, deletedAt := none, createdAt := 0, updatedAt := 0 }
      (by decide) (by decide) (by decide)
  exact ⟨by decide, by rw [hrun]; rfl⟩

/-! ## C9 — duplicate groups -/

/-- The keys (hashes) of a grouping accumulator, in order. -/
def keysOf (acc : List (String × List FileRow)) : List String :=
  acc.map Prod.fst

theorem keysOf_insertGrouped (acc : List (String × List FileRow))
    (h : String) (f : FileRow) :
    keysOf (insertGrouped acc h f)
      = if h ∈ keysOf acc then keysOf acc else keysOf acc ++ [h] := by
  induction acc with
  | nil => simp [insertGrouped, keysOf]
  | cons kg rest ih =>
    obtain ⟨k, g⟩ := kg
    by_cases hk : k = h
    · subst hk
      simp [insertGrouped, keysOf]
    · simp only [insertGrouped, if_neg hk, keysOf, List.map_cons] at ih ⊢
      rw [ih]
      by_cases hmem : h ∈ List.map Prod.fst rest
      · rw [if_pos hmem, if_pos (List.mem_cons_of_mem _ hmem)]
      · rw [if_neg hmem, if_neg ?_]
        · simp
        · intro hc
          rcases List.mem_cons.mp hc with hc | hc
          · exact hk hc.symm
          · exact hmem hc

theorem keysOf_insertGrouped_nodup (acc : List (String × List FileRow))
    (h : String) (f : FileRow) (hnod : (keysOf acc).Nodup) :
    (keysOf (insertGrouped acc h f)).Nodup := by
  rw [keysOf_insertGrouped]
  by_cases hmem : h ∈ keysOf acc
  · rw [if_pos hmem]; exact hnod
  · rw [if_neg hmem]
    simp [List.nodup_append, hnod, hmem]

theorem keysOf_insertGrouped_superset (acc : List (String × List FileRow))
    (h : String) (f : FileRow) :
    ∀ k, (k ∈ keysOf acc ∨ k = h) → k ∈ keysOf (insertGrouped acc h f) := by
  intro k hk
  rw [keysOf_insertGrouped]
  by_cases hmem : h ∈ keysOf acc
  · rw [if_pos hmem]
    rcases hk with hk | rfl
    · exact hk
    · exact hmem
  · rw [if_neg hmem]
    rcases hk with hk | rfl
    · exact List.mem_append_left _ hk
    · exact List.mem_append_right _ (List.mem_singleton_self k)

theorem mem_insertGrouped_key (acc : List (String × List FileRow))
    (h : String) (f : FileRow) :
    ∀ kg ∈ insertGrouped acc h f, kg.1 ∈ keysOf acc ∨ kg.1 = h := by
  intro kg hkg
  have : kg.1 ∈ keysOf (insertGrouped acc h f) := List.mem_map_of_mem _ hkg
  rw [keysOf_insertGrouped] at this
  by_cases hmem : h ∈ keysOf acc
  · rw [if_pos hmem] at this
    exact Or.inl this
  · rw [if_neg hmem] at this
    rcases List.mem_append.mp this with h1 | h1
    · exact Or.inl h1
    · exact Or.inr (List.mem_singleton.mp h1)

/-- Inserting a file into the group of its own hash keeps every group in
the accumulator equal to the filter of the processed prefix by its key. -/
theorem insertGrouped_groups (processed : List FileRow) (f : FileRow)
    (h : String) (hf : f.contentHash = some h) :
    ∀ acc : List (String × List FileRow),
      (keysOf acc).Nodup →
      (∀ kg ∈ acc, kg.2 = processed.filter (fun x => x.contentHash == some kg.1)) →
      (h ∉ keysOf acc → ∀ x ∈ processed, ¬x.contentHash = some h) →
      ∀ kg ∈ insertGrouped acc h f,
        kg.2 = (processed ++ [f]).filter (fun x => x.contentHash == some kg.1) := by
  intro acc
  induction acc with
  | nil =>
    intro _ _ hmiss kg hkg
    simp only [insertGrouped, List.mem_singleton] at hkg
    subst hkg
    rw [List.filter_append]
    have hpe : processed.filter (fun x => x.contentHash == some h) = [] := by
      rw [List.filter_eq_nil_iff]
      intro a ha
      have := hmiss (by simp [keysOf]) a ha
      simp [this]
    simp only []
    rw [hpe]
    simp [hf]
  | cons kg0 rest ih =>
    intro hnod hall hmiss kg hkg
    obtain ⟨k, g⟩ := kg0
    simp only [keysOf, List.map_cons, List.nodup_cons] at hnod
    by_cases hk : k = h
    · subst hk
      simp only [insertGrouped, if_pos rfl] at hkg
      rcases List.mem_cons.mp hkg with hkg1 | hkg
      · rw [hkg1]
        simp only []
        rw [List.filter_append]
        have hg := hall (k, g) (List.mem_cons_self _ _)
        simp only [] at hg
        rw [hg]
        simp [hf]
      · have hrest := hall kg (List.mem_cons_of_mem _ hkg)
        rw [List.filter_append, hrest]
        have hkne : kg.1 ≠ k := by
          intro hc
          exact hnod.1 (hc ▸ List.mem_map_of_mem _ hkg)
        have : ¬(f.contentHash == some kg.1) = true := by
          rw [hf, beq_iff_eq]
          intro hc
          exact hkne (by injection hc with hc; exact hc.symm)
        simp [this]
    · simp only [insertGrouped, if_neg hk] at hkg
      rcases List.mem_cons.mp hkg with hkg1 | hkg
      · rw [hkg1]
        have hg := hall (k, g) (List.mem_cons_self _ _)
        simp only [] at hg ⊢
        rw [List.filter_append, hg]
        have : ¬(f.contentHash == some k) = true := by
          rw [hf, beq_iff_eq]
          intro hc
          exact hk (by injection hc with hc; exact hc.symm)
        simp [this]
      · refine ih hnod.2 (fun kg2 hkg2 => hall kg2 (List.mem_cons_of_mem _ hkg2))
          ?_ kg hkg
        intro hnm
        refine hmiss ?_
        simp only [keysOf, List.map_cons, List.mem_cons]
        rintro (rfl | hmem)
        · exact hk rfl
        · exact hnm hmem

/-- The loop invariant of the grouping fold: keys are duplicate-free and
nonempty hashes, every group is the filter of the processed prefix by its
key, and every nonempty hash occurring in the prefix has a group. -/
def GroupInv (processed : List FileRow)
    (acc : List (String × List FileRow)) : Prop :=
  (keysOf acc).Nodup ∧
  (∀ kg ∈ acc, kg.1 ≠ "" ∧
    kg.2 = processed.filter (fun x => x.contentHash == some kg.1)) ∧
  (∀ k : String, k ≠ "" → (∃ x ∈ processed, x.contentHash = some k) →
    k ∈ keysOf acc)

theorem groupStep_inv (processed : List FileRow) (f : FileRow)
    (acc : List (String × List FileRow)) (hinv : GroupInv processed acc) :
    GroupInv (processed ++ [f]) (groupStep acc f) := by
  obtain ⟨hnod, hall, hcomp⟩ := hinv
  have hskip : ∀ (hout : ∀ k : String, k ≠ "" → ¬f.contentHash = some k),
      GroupInv (processed ++ [f]) acc := by
    intro hout
    refine ⟨hnod, ?_, ?_⟩
    · intro kg hkg
      obtain ⟨hne, hg⟩ := hall kg hkg
      refine ⟨hne, ?_⟩
      rw [List.filter_append, hg]
      have : ¬(f.contentHash == some kg.1) = true := by
        rw [beq_iff_eq]
        exact hout kg.1 hne
      simp [this]
    · intro k hk hex
      obtain ⟨x, hx, hxh⟩ := hex
      rcases List.mem_append.mp hx with hx | hx
      · exact hcomp k hk ⟨x, hx, hxh⟩
      · rw [List.mem_singleton] at hx
        subst hx
        exact absurd hxh (hout k hk)
  cases hfc : f.contentHash with
  | none =>
    have : groupStep acc f = acc := by unfold groupStep; rw [hfc]
    rw [this]
    exact hskip (fun k _ hc => by rw [hfc] at hc; cases hc)
  | some h =>
    by_cases hh : h = ""
    · subst hh
      have : groupStep acc f = acc := by unfold groupStep; rw [hfc]; simp
      rw [this]
      refine hskip (fun k hk hc => ?_)
      rw [hfc] at hc
      injection hc with hc
      exact hk hc.symm
    · have hstep : groupStep acc f = insertGrouped acc h f := by
        unfold groupStep; rw [hfc]; simp [hh]
      rw [hstep]
      refine ⟨keysOf_insertGrouped_nodup acc h f hnod, ?_, ?_⟩
      · intro kg hkg
        constructor
        · rcases mem_insertGrouped_key acc h f kg hkg with hmem | rfl
          · rw [keysOf, List.mem_map] at hmem
            obtain ⟨kg0, hkg0, hfst⟩ := hmem
            exact hfst ▸ (hall kg0 hkg0).1
          · exact hh
        · exact insertGrouped_groups processed f h hfc acc hnod
            (fun kg2 hkg2 => (hall kg2 hkg2).2)
            (fun hnm x hx hxc => hnm (hcomp h hh ⟨x, hx, hxc⟩)) kg hkg
      · intro k hk hex
        obtain ⟨x, hx, hxh⟩ := hex
        rcases List.mem_append.mp hx with hx | hx
        · exact keysOf_insertGrouped_superset acc h f k
            (Or.inl (hcomp k hk ⟨x, hx, hxh⟩))
        · rw [List.mem_singleton] at hx
          rw [hx] at hxh
          rw [hfc] at hxh
          injection hxh with hxh
          exact keysOf_insertGrouped_superset acc h f k (Or.inr hxh.symm)

/-- The grouping loop establishes its invariant over the whole file
list. -/
theorem groupByHash_inv (files : List FileRow) :
    GroupInv files (groupByHash files) := by
  suffices hgen : ∀ (rest processed : List FileRow)
      (acc : List (String × List FileRow)), GroupInv processed acc →
      GroupInv (processed ++ rest) (rest.foldl groupStep acc) by
    have h0 : GroupInv [] [] := by
      refine ⟨by simp [keysOf], by simp, by simp⟩
    have := hgen files [] [] h0
    simpa [groupByHash] using this
  intro rest
  induction rest with
  | nil =>
    intro processed acc h
    simpa using h
  | cons f rest ih =>
    intro processed acc hinv
    have h2 := ih (processed ++ [f]) (groupStep acc f) (groupStep_inv processed f acc hinv)
    simpa [List.append_assoc] using h2

/-- C9: `findDuplicates` reports exactly the groups of two or more
non-deleted user files sharing a (non-null, non-empty) content digest:
every reported group has at least two members, its member count and
member ids match the set of such files for its hash, its first member is
an earliest-created one and the wasted space is the summed sizes of all
members except that first one; every digest with at least two such files
is reported; and the totals aggregate the groups. -/
theorem findDuplicates_spec (db : DB) (u : String) :
    ((findDuplicates db u).totalGroups
      = (findDuplicates db u).duplicateGroups.length) ∧
    ((findDuplicates db u).totalWastedSpace
      = ((findDuplicates db u).duplicateGroups.map
          (fun G => G.totalWastedSpace)).sum) ∧
    (∀ G ∈ (findDuplicates db u).duplicateGroups,
      G.hash ≠ "" ∧ 2 ≤ G.count ∧
      G.count = (db.files.filter (fun f =>
        dupSelect u f && f.contentHash == some G.hash)).length ∧
      (G.files.map (fun e => e.id)).Perm
        ((db.files.filter (fun f =>
          dupSelect u f && f.contentHash == some G.hash)).map (fun f => f.id)) ∧
      (∃ first, G.files.head? = some first ∧
        (∀ e ∈ G.files, first.createdAt ≤ e.createdAt) ∧
        first.size + G.totalWastedSpace
          = (G.files.map (fun e => e.size)).sum)) ∧
    (∀ k : String, k ≠ "" →
      2 ≤ (db.files.filter (fun f =>
        dupSelect u f && f.contentHash == some k)).length →
      ∃ G ∈ (findDuplicates db u).duplicateGroups, G.hash = k) := by
  obtain ⟨hnod, hall, hcomp⟩ :=
    groupByHash_inv (sortByCreatedAt (db.files.filter (dupSelect u)))
  have hperm : (sortByCreatedAt (db.files.filter (dupSelect u))).Perm
      (db.files.filter (dupSelect u)) := List.perm_insertionSort _ _
  have hsorted : (sortByCreatedAt (db.files.filter (dupSelect u))).Pairwise
      byCreated := List.sorted_insertionSort _ _
  have hfilters : ∀ k : String,
      ((sortByCreatedAt (db.files.filter (dupSelect u))).filter
        (fun x => x.contentHash == some k)).Perm
      (db.files.filter (fun f => dupSelect u f && f.contentHash == some k)) := by
    intro k
    have h1 := hperm.filter (fun x => x.contentHash == some k)
    rw [List.filter_filter] at h1
    have hcomm : ∀ f ∈ db.files,
        ((f.contentHash == some k) && dupSelect u f)
          = (dupSelect u f && (f.contentHash == some k)) :=
      fun f _ => Bool.and_comm _ _
    rwa [List.filter_congr hcomm] at h1
  have hdg : (findDuplicates db u).duplicateGroups
      = ((groupByHash (sortByCreatedAt (db.files.filter (dupSelect u)))).filter
          (fun g => g.2.length > 1)).map (fun g =>
        { hash := g.1
          count := g.2.length
          files := g.2.map (toDupEntry db.folders)
          totalWastedSpace := (g.2.drop 1).foldl (fun s f => s + f.size) 0 }) := rfl
  refine ⟨rfl, ?_, ?_, ?_⟩
  · have := foldl_add_eq_sum (fun G : DupGroup => G.totalWastedSpace)
      (findDuplicates db u).duplicateGroups 0
    simpa using this
  · intro G hG
    rw [hdg] at hG
    rw [List.mem_map] at hG
    obtain ⟨kg, hkgDup, hGdef⟩ := hG
    rw [List.mem_filter] at hkgDup
    obtain ⟨hkgMem, hkgLen⟩ := hkgDup
    have hlen : 1 < kg.2.length := of_decide_eq_true hkgLen
    obtain ⟨hkne, hkgFilter⟩ := hall kg hkgMem
    have hcnt : kg.2.length = (db.files.filter (fun f =>
        dupSelect u f && f.contentHash == some kg.1)).length := by
      rw [hkgFilter]
      exact (hfilters kg.1).length_eq
    subst hGdef
    refine ⟨hkne, by show 2 ≤ kg.2.length; omega, hcnt, ?_, ?_⟩
    · simp only [List.map_map]
      have hids : (kg.2.map (fun f => f.id)).Perm
          ((db.files.filter (fun f =>
            dupSelect u f && f.contentHash == some kg.1)).map (fun f => f.id)) := by
        rw [hkgFilter]
        exact (hfilters kg.1).map _
      exact hids
    · have hpair : kg.2.Pairwise byCreated := by
        rw [hkgFilter]
        exact hsorted.filter _
      cases hg2 : kg.2 with
      | nil => rw [hg2] at hlen; simp at hlen
      | cons a t =>
        rw [hg2] at hpair
        rw [List.pairwise_cons] at hpair
        refine ⟨toDupEntry db.folders a, ?_, ?_, ?_⟩
        · simp [hg2]
        · intro e he
          simp only [hg2, List.map_cons, List.mem_cons] at he
          rcases he with rfl | he
          · exact Nat.le_refl _
          · rw [List.mem_map] at he
            obtain ⟨x, hx, hex⟩ := he
            have := hpair.1 x hx
            rw [← hex]
            exact this
        · simp only [hg2, List.drop_succ_cons, List.drop_zero, List.map_cons,
            List.sum_cons]
          rw [foldl_add_eq_sum]
          simp only [Nat.zero_add, List.map_map]
          rfl
  · intro k hk hcount
    have hpos : 0 < (db.files.filter (fun f =>
        dupSelect u f && f.contentHash == some k)).length := by omega
    rw [List.length_pos] at hpos
    obtain ⟨x, hx⟩ := List.exists_mem_of_ne_nil _ hpos
    rw [List.mem_filter] at hx
    obtain ⟨hxdb, hxp⟩ := hx
    rw [Bool.and_eq_true] at hxp
    have hxFS : x ∈ sortByCreatedAt (db.files.filter (dupSelect u)) := by
      rw [hperm.mem_iff, List.mem_filter]
      exact ⟨hxdb, hxp.1⟩
    have hxh : x.contentHash = some k := by
      have := hxp.2
      rwa [beq_iff_eq] at this
    have hkmem := hcomp k hk ⟨x, hxFS, hxh⟩
    rw [keysOf, List.mem_map] at hkmem
    obtain ⟨kg, hkgMem, hkgFst⟩ := hkmem
    obtain ⟨_, hkgFilter⟩ := hall kg hkgMem
    have hlen : 1 < kg.2.length := by
      have : kg.2.length = (db.files.filter (fun f =>
          dupSelect u f && f.contentHash == some k)).length := by
        rw [hkgFilter, hkgFst]
        exact (hfilters k).length_eq
      omega
    rw [hdg]
    refine ⟨_, List.mem_map_of_mem _ (List.mem_filter.mpr
      ⟨hkgMem, decide_eq_true hlen⟩), hkgFst⟩

/-- C9 (witness): on files with digests `h1, h1, h2` the report has
exactly one group — the two `h1` files — whose wasted space is the size
of the later-created member, and the completeness direction applies to
`h1`. -/
theorem findDuplicates_spec_witness :
    (findDuplicates exDbDup "u").totalGroups = 1 ∧
    ((findDuplicates exDbDup "u").duplicateGroups.map
      (fun G => (G.hash, G.count, G.files.map (fun e => e.id), G.totalWastedSpace)))
      = [("h1", 2, ["A", "B"], 20)] ∧
    ∃ G ∈ (findDuplicates exDbDup "u").duplicateGroups, G.hash = "h1" := by
  refine ⟨by decide, by decide, ?_⟩
  exact (findDuplicates_spec exDbDup "u").2.2.2 "h1" (by decide) (by decide)

end LocalCloud
